import Mathlib

/-!
Verification of the ZFS storage driver (`storage_zfs.go`) of the lxd
repository.  Each driver operation that a claim touches is shallowly
embedded as an executable Lean function; zfs-tool invocations and host
filesystem operations that live outside the translated file are treated
as oracles (environment records) or as explicit state on a small
filesystem model, and the control flow of the Go source is translated
verbatim.
-/

namespace ZfsDriver

/-- Modelled from the spec: boolean config values (§6) are parsed by
`shared.IsTrue`, which is not under src/; it recognises the usual true
spellings case-insensitively (lower-casing is done character by
character so that the function reduces inside the kernel). -/
def isTrue (s : String) : Bool :=
  let l := String.mk (s.data.map Char.toLower)
  l == "true" || l == "1" || l == "yes" || l == "on"

/-- Character-list core of Go `strings.TrimPrefix`: `some rest` when the
first list is a prefix and `rest` is what follows it. -/
def dropPreChars : List Char → List Char → Option (List Char)
  | [], s => some s
  | _ :: _, [] => none
  | p :: ps, c :: cs => if p = c then dropPreChars ps cs else none

/-- Go `strings.TrimPrefix`: drop `p` from the front of `s` when present. -/
def stringDropPre (p s : String) : String :=
  match dropPreChars p.data s.data with
  | some rest => String.mk rest
  | none => s

/-- Split a character list at the first `/` (Go
`strings.SplitN(name, "/", 2)`). -/
def splitFirstSlash : List Char → Option (List Char × List Char)
  | [] => none
  | c :: rest =>
    if c = '/' then some ([], rest)
    else
      match splitFirstSlash rest with
      | none => none
      | some (a, b) => some (c :: a, b)

/-- Modelled from the spec: `containerGetParentAndSnapshotName` (§4.B
`split_snapshot_name`) is not under src/; it splits a qualified snapshot
name at the first `/` into (parent, snap, is-snapshot). -/
def splitSnapshotName (name : String) : String × String × Bool :=
  match splitFirstSlash name.data with
  | none => (name, "", false)
  | some (a, b) => (String.mk a, String.mk b, true)

/-! ### StoragePoolUpdate (storage_zfs.go lines 350-389)

`shared.StringInSlice` (membership test, outside src/) is rendered as
list membership. -/

/-- Translation of `StoragePoolUpdate`: the sequence of rejected config
keys, in source order; `.ok ()` models the nil return. -/
def storagePoolUpdate (changedConfig : List String) : Except String Unit :=
  if "size" ∈ changedConfig then
    .error "the size property cannot be changed"
  else if "source" ∈ changedConfig then
    .error "the source property cannot be changed"
  else if "volume.size" ∈ changedConfig then
    .error "the volume.size property cannot be changed"
  else if "volume.block.mount_options" ∈ changedConfig then
    .error "the volume.block.mount_options property cannot be changed"
  else if "volume.block.filesystem" ∈ changedConfig then
    .error "the volume.block.filesystem property cannot be changed"
  else if "lvm.thinpool_name" ∈ changedConfig then
    .error "the lvm.thinpool_name property cannot be changed"
  else if "lvm.vg_name" ∈ changedConfig then
    .error "the lvm.vg_name property cannot be changed"
  else if "zfs.pool_name" ∈ changedConfig then
    .error "the zfs.pool_name property cannot be changed"
  else
    .ok ()

/-! ### ContainerCopy mode selection (storage_zfs.go lines 1022-1050) -/

/-- The three copy modes of the copy engine (§4.F). -/
inductive CopyMode
  | sparse
  | full
  | replay
deriving DecidableEq

/-- Translation of the precondition check and mode dispatch of
`ContainerCopy`: cross-pool copy errors out before any mode is chosen;
otherwise `zfs.clone_copy=false` selects send/receive, snapshots select
replay. -/
def containerCopy (sourcePool targetPool : String) (snapshots : List String)
    (containerOnly : Bool) (cloneCopyCfg : String) : Except String CopyMode :=
  if sourcePool ≠ targetPool then
    .error "copying containers between different storage pools is not implemented"
  else if containerOnly || snapshots.isEmpty then
    if cloneCopyCfg ≠ "" && !isTrue cloneCopyCfg then
      .ok CopyMode.full
    else
      .ok CopyMode.sparse
  else
    .ok CopyMode.replay

/-! ### MigrationSink post-receive cleanup (storage_zfs.go lines 2061-2077)

The deferred closure lists the snapshots of `containers/<name>` and
destroys each one unless a nonempty snapshot list was expected and the
name does not begin with `migration-send`. -/

/-- The snapshots destroyed by the deferred cleanup of `MigrationSink`:
`expected` is the list of expected snapshots (`snapshots` parameter),
`zfsSnapshots` the names found on the received dataset. -/
def migrationSinkCleanup (expected : List String) (zfsSnapshots : List String) :
    List String :=
  zfsSnapshots.filter fun snap =>
    !(!expected.isEmpty && !snap.startsWith "migration-send")

/-! ### ContainerRestore (storage_zfs.go lines 1226-1275)

The deletion loop runs `i` from `len(snaps)-1` down while `i != 0`,
breaking when `snaps[i]` is the source; then it rolls back.  The Go loop
indexes `snaps[i]`; the embedding uses `getD` (the claim's hypotheses
keep every access in bounds). -/

/-- One-to-one translation of the `for i := len(snaps) - 1; i != 0; i--`
loop body: the list of snapshot names deleted, where the argument is the
current loop index. -/
def containerRestoreDeleteFrom (snaps : List String) (src : String) :
    Nat → List String
  | 0 => []
  | i + 1 =>
    if snaps.getD (i + 1) "" == src then []
    else snaps.getD (i + 1) "" :: containerRestoreDeleteFrom snaps src i

/-- The snapshots `ContainerRestore` deletes, in deletion order. -/
def containerRestoreDeletes (snaps : List String) (src : String) : List String :=
  containerRestoreDeleteFrom snaps src (snaps.length - 1)

/-- Effects of `ContainerRestore`. -/
inductive RestoreAct
  | deleteSnap (name : String)
  | rollback (fs : String) (snap : String)
deriving DecidableEq

/-- Translation of `ContainerRestore` (after the storage-start
preamble): delete newer snapshots, then roll the container dataset back
to `snapshot-<snap>`.  The pool and volume configs are passed exactly as
they are in scope in the source (`s.pool.Config`, `s.volume.Config`);
the body never consults them. -/
def containerRestore (poolRemoveCfg volRemoveCfg : String)
    (snaps : List String) (srcName : String) : List RestoreAct :=
  let deletes := (containerRestoreDeletes snaps srcName).map RestoreAct.deleteSnap
  let pr := splitSnapshotName srcName
  deletes ++ [RestoreAct.rollback ("containers/" ++ pr.1) ("snapshot-" ++ pr.2.1)]

/-! ### The two process-global preference variables (storage_zfs.go lines 23-24)

`zfsUseRefquota` and `zfsRemoveSnapshots` are package-level `var`s with
initial value `"false"`.  Each consulting call site overwrites them from
pool config then volume config when those are nonempty, and otherwise
reads whatever an earlier call left behind.  The embeddings thread the
global explicitly: each function takes the current global value and
returns the value it leaves behind. -/

/-- Initial value of both globals (`var zfsUseRefquota = "false"`, line 23). -/
def zfsGlobalInit : String := "false"

/-- The shared update pattern: overwrite the global from pool config,
then from volume config, when nonempty (lines 671-676, 1286-1291,
1318-1323). -/
def resolveVolPref (g poolCfg volCfg : String) : String :=
  let g1 := if poolCfg ≠ "" then poolCfg else g
  if volCfg ≠ "" then volCfg else g1

/-- Translation of `ContainerSetQuota` (lines 1277-1309): returns the
zfs property name set, the value written, and the new global value. -/
def containerSetQuota (g poolCfg volCfg : String) (size : Int) :
    String × String × String :=
  let g2 := resolveVolPref g poolCfg volCfg
  let property := if isTrue g2 then "refquota" else "quota"
  let value := if size > 0 then toString size else "none"
  (property, value, g2)

/-- Translation of `ContainerGetUsage` (lines 1311-1340): returns the
zfs property name read and the new global value. -/
def containerGetUsage (g poolCfg volCfg : String) : String × String :=
  let g2 := resolveVolPref g poolCfg volCfg
  ((if isTrue g2 then "usedbydataset" else "used"), g2)

/-- Translation of `ContainerCanRestore` (lines 664-685): `snaps` are
the container's snapshot names, `srcName` the restore source.  Returns
the error (if any) and the new global value; the function performs no
zfs or host action. -/
def containerCanRestore (g poolCfg volCfg : String) (snaps : List String)
    (srcName : String) : Option String × String :=
  if snaps.getLast? == some srcName then (none, g)
  else
    let g2 := resolveVolPref g poolCfg volCfg
    if isTrue g2 then (none, g2)
    else (some "ZFS can only restore from the latest snapshot. Delete newer snapshots or copy the snapshot into a new container instead", g2)

/-! ### ContainerMount, single-caller mount attempt (storage_zfs.go lines 444-473)

The body executed by the caller that acquired the coordinator key:
create the mountpoint directory if missing, then mount unless the path
is already a mountpoint.  `tryMount`, `shared.PathExists`,
`shared.IsMountPoint` and `createContainerMountpoint` live outside src/
and enter as oracles. -/

/-- Error category of a `tryMount` failure: the driver only
distinguishes `syscall.EBUSY` from everything else. -/
inductive MountErr
  | ebusy
  | other (msg : String)
deriving DecidableEq

/-- Oracles for one `ContainerMount` body. -/
structure MountEnv where
  /-- `shared.PathExists(containerPoolVolumeMntPoint)` -/
  pathExistsMnt : Bool
  /-- result of `createContainerMountpoint` -/
  mkMountpointRes : Except String Unit
  /-- `shared.IsMountPoint(containerPoolVolumeMntPoint)` -/
  isMnt : Bool
  /-- result of `tryMount` (`none` = success) -/
  tryMountRes : Option MountErr

/-- Translation of the work section of `ContainerMount` (lines 444-473):
result is `(ourMount, error)` exactly as the Go function returns them.
Both the non-EBUSY and the EBUSY failure branches execute
`return false, mounterr`. -/
def containerMountOnce (env : MountEnv) : Bool × Option MountErr :=
  match (if !env.pathExistsMnt then env.mkMountpointRes else .ok ()) with
  | .error e => (false, some (MountErr.other e))
  | .ok _ =>
    if !env.isMnt then
      match env.tryMountRes with
      | some e => (false, some e)
      | none => (true, none)
    else (false, none)

/-! ### ContainerDelete (storage_zfs.go lines 687-772) -/

/-- Effects issued by `ContainerDelete`, in order.  `destroyFs`,
`cleanupOrigin`, `setMountpoint` and `renameFs` are the zfs commands of
the existence branch; the remaining constructors are the unconditional
host cleanup (`deleteContainerMountpoint`, best-effort destroy of the
`snapshots/<name>` dataset, removal of leftover snapshot mountpoint and
symlink). -/
inductive DelAct
  | destroyFs (fs : String)
  | cleanupOrigin (origin : String)
  | setMountpoint (fs : String) (v : String)
  | renameFs (fs : String) (toFs : String)
  | deleteMnt (name : String)
  | destroySnapDataset (fs : String)
  | removeAllPath (name : String)
  | removeSymlink (name : String)
deriving DecidableEq

/-- Oracles for one `ContainerDelete` run. -/
structure DeleteEnv where
  containerName : String
  poolName : String
  /-- `zfsFilesystemEntityExists(fs, true)` -/
  fsExists : Bool
  /-- `zfsPoolListSnapshots(fs)` -/
  listSnaps : Except String (List String)
  /-- `zfsPoolVolumeSnapshotRemovable(fs, snap)` -/
  snapRemovable : String → Except String Bool
  /-- `zfsFilesystemEntityPropertyGet(fs, "origin", true)` -/
  originGet : Except String String
  /-- `zfsPoolVolumeDestroy(fs)` -/
  destroyRes : Except String Unit
  /-- `zfsPoolVolumeCleanup(origin)` -/
  cleanupRes : Except String Unit
  /-- `zfsPoolVolumeSet(fs, "mountpoint", "none")` -/
  setMpRes : Except String Unit
  /-- `zfsPoolVolumeRename(fs, "deleted/containers/<uuid>")` -/
  renameRes : Except String Unit
  /-- `uuid.NewRandom().String()` -/
  newUuid : String
  /-- `deleteContainerMountpoint(...)` -/
  deleteMntRes : Except String Unit
  /-- `shared.PathExists(snapshotMntPoint)` -/
  snapMntExists : Bool
  /-- `os.RemoveAll(snapshotMntPoint)` -/
  removeAllRes : Except String Unit
  /-- `shared.PathExists(snapshotSymlink)` -/
  symlinkExists : Bool
  /-- `os.Remove(snapshotSymlink)` -/
  removeSymRes : Except String Unit

/-- The removability scan of lines 695-711: `removable` starts `true`,
is overwritten by each snapshot's answer, and the loop breaks on the
first `false`; an oracle error aborts the whole delete. -/
def zfsCheckRemovable (f : String → Except String Bool) :
    List String → Except String Bool
  | [] => .ok true
  | s :: rest =>
    match f s with
    | .error e => .error e
    | .ok true => zfsCheckRemovable f rest
    | .ok false => .ok false

/-- Lines 743-768 of `ContainerDelete`: the mountpoint/symlink cleanup
run after the branch.  The `zfsPoolVolumeDestroy(snapshotZfsDataset)`
on line 749 discards its error (best effort). -/
def containerDeleteTailActs (env : DeleteEnv) : Except String (List DelAct) :=
  match env.deleteMntRes with
  | .error e => .error e
  | .ok _ =>
    let base := [DelAct.deleteMnt env.containerName,
      DelAct.destroySnapDataset ("snapshots/" ++ env.containerName)]
    let step1 : Except String (List DelAct) :=
      if env.snapMntExists then
        match env.removeAllRes with
        | .error e => .error e
        | .ok _ => .ok (base ++ [DelAct.removeAllPath env.containerName])
      else .ok base
    match step1 with
    | .error e => .error e
    | .ok acc2 =>
      if env.symlinkExists then
        match env.removeSymRes with
        | .error e => .error e
        | .ok _ => .ok (acc2 ++ [DelAct.removeSymlink env.containerName])
      else .ok acc2

/-- The cleanup tail appended to the actions `acc` already issued by the
existence branch. -/
def containerDeleteTail (env : DeleteEnv) (acc : List DelAct) :
    Except String (List DelAct) :=
  (containerDeleteTailActs env).map (fun extra => acc ++ extra)

/-- Translation of `ContainerDelete` (lines 687-772): returns the
ordered list of effects, or the first error. -/
def containerDelete (env : DeleteEnv) : Except String (List DelAct) :=
  let fs := "containers/" ++ env.containerName
  if env.fsExists then
    match env.listSnaps with
    | .error e => .error e
    | .ok snaps =>
      match zfsCheckRemovable env.snapRemovable snaps with
      | .error e => .error e
      | .ok removable =>
        if removable then
          match env.originGet with
          | .error e => .error e
          | .ok origin0 =>
            let origin := stringDropPre (env.poolName ++ "/") origin0
            match env.destroyRes with
            | .error e => .error e
            | .ok _ =>
              match env.cleanupRes with
              | .error e => .error e
              | .ok _ =>
                containerDeleteTail env
                  [DelAct.destroyFs fs, DelAct.cleanupOrigin origin]
        else
          match env.setMpRes with
          | .error e => .error e
          | .ok _ =>
            match env.renameRes with
            | .error e => .error e
            | .ok _ =>
              containerDeleteTail env
                [DelAct.setMountpoint fs "none",
                 DelAct.renameFs fs ("deleted/containers/" ++ env.newUuid)]
  else containerDeleteTail env []

/-- Classifier for the host cleanup actions emitted by
`containerDeleteTail`. -/
def isHostAct : DelAct → Bool
  | DelAct.deleteMnt _ => true
  | DelAct.destroySnapDataset _ => true
  | DelAct.removeAllPath _ => true
  | DelAct.removeSymlink _ => true
  | _ => false

/-- A concrete, fully successful `ContainerDelete` environment with one
removable snapshot, used to exercise the theorem about the delete
branches. -/
def deleteDemoEnv : DeleteEnv :=
  { containerName := "a", poolName := "pool1", fsExists := true,
    listSnaps := .ok ["snapshot-s1"],
    snapRemovable := fun _ => .ok true,
    originGet := .ok "pool1/deleted/images/fp@readonly",
    destroyRes := .ok (), cleanupRes := .ok (), setMpRes := .ok (),
    renameRes := .ok (), newUuid := "u1", deleteMntRes := .ok (),
    snapMntExists := true, removeAllRes := .ok (), symlinkExists := true,
    removeSymRes := .ok () }

/-! ### ContainerRename (storage_zfs.go lines 1144-1224)

Rename manipulates the zfs namespace and the host filesystem together,
so it is embedded as a transformer on a concrete state.  Path helpers
(`shared.VarPath`, `getContainerMountPoint`, `getSnapshotMountPoint`)
live outside src/ and are modelled from the host layout of spec §6. -/

/-- Modelled from the spec: `shared.VarPath` joins path elements under
the daemon directory (§6 `<daemon-var>`). -/
def varPath (parts : List String) : String :=
  String.intercalate "/" ("VAR" :: parts)

/-- Modelled from the spec: container mountpoint
`<pool-mount>/containers/<n>` (§6). -/
def getContainerMountPoint (pool name : String) : String :=
  varPath ["storage-pools", pool, "containers", name]

/-- Modelled from the spec: snapshot aggregate mountpoint
`<pool-mount>/snapshots/<parent>` (§6). -/
def getSnapshotMountPoint (pool name : String) : String :=
  varPath ["storage-pools", pool, "snapshots", name]

/-- Combined zfs/host state touched by rename: zfs filesystems, zfs
snapshots `(dataset, snap)`, per-dataset mountpoint property, mounted
paths, host directories, and symlinks `(link path, target)`. -/
structure FsState where
  datasets : List String
  snaps : List (String × String)
  mountpointProp : List (String × String)
  mounted : List String
  dirs : List String
  symlinks : List (String × String)
deriving DecidableEq

/-- `shared.PathExists` on the model: a path exists when it is a host
directory or a symlink. -/
def pathExists (st : FsState) (p : String) : Bool :=
  st.dirs.contains p || st.symlinks.any (fun l => l.1 == p)

/-- Whether the state holds a symlink at `p`. -/
def hasSymlink (st : FsState) (p : String) : Bool :=
  st.symlinks.any (fun l => l.1 == p)

/-- `ContainerUmount` on the model: unmount the path when it is a
mountpoint (the coordinator bookkeeping does not alter host state). -/
def umountPath (st : FsState) (p : String) : FsState :=
  if st.mounted.contains p then { st with mounted := st.mounted.erase p } else st

/-- `zfs rename` on the model: the filesystem entry, its snapshots and
its properties move to the new name. -/
def zfsRenameDataset (st : FsState) (o n : String) : FsState :=
  { st with
    datasets := st.datasets.map (fun d => if d == o then n else d),
    snaps := st.snaps.map (fun p => if p.1 == o then (n, p.2) else p),
    mountpointProp :=
      st.mountpointProp.map (fun p => if p.1 == o then (n, p.2) else p) }

/-- `zfs set mountpoint=` on the model. -/
def zfsSetMountpoint (st : FsState) (fs v : String) : FsState :=
  { st with mountpointProp :=
      st.mountpointProp.filter (fun p => p.1 ≠ fs) ++ [(fs, v)] }

/-- `os.Symlink(target, link)` on the model: fails when the link path
already exists, as the syscall does. -/
def osSymlink (st : FsState) (target lnk : String) : Except String FsState :=
  if pathExists st lnk then .error "file exists"
  else .ok { st with symlinks := st.symlinks ++ [(lnk, target)] }

/-- `os.Remove(link)` on the model (symlink removal). -/
def osRemoveLink (st : FsState) (lnk : String) : FsState :=
  { st with symlinks := st.symlinks.filter (fun l => l.1 ≠ lnk) }

/-- `os.Rename(old, new)` on a host directory. -/
def osRenameDir (st : FsState) (o n : String) : FsState :=
  { st with dirs := st.dirs.map (fun d => if d == o then n else d) }

/-- Modelled from the spec: `renameContainerMountpoint` (§4.C
`rename_mountpoint`) renames the container's mount directory and
re-points its daemon symlink. -/
def renameContainerMountpoint (st : FsState)
    (oldMnt oldSym newMnt newSym : String) : FsState :=
  let st1 := osRenameDir st oldMnt newMnt
  let st2 := osRemoveLink st1 oldSym
  { st2 with symlinks := st2.symlinks ++ [(newSym, newMnt)] }

/-- Translation of `ContainerRename` (lines 1144-1224) on the model:
unmount, zfs-rename, set the new mountpoint property, unmount again,
rename the container mountpoint and symlink, rename the snapshot
mountpoint directory, remove the old aggregate symlink, and finally
create the new aggregate symlink only when its path already exists
(the guard of line 1213 as written in the source). -/
def containerRename (pool oldName newName : String) (st : FsState) :
    Except String FsState :=
  let oldZfsDataset := "containers/" ++ oldName
  let newZfsDataset := "containers/" ++ newName
  let st1 := umountPath st (getContainerMountPoint pool oldName)
  let st2 := zfsRenameDataset st1 oldZfsDataset newZfsDataset
  let newContainerMntPoint := getContainerMountPoint pool newName
  let st3 := zfsSetMountpoint st2 newZfsDataset newContainerMntPoint
  let st4 := umountPath st3 newContainerMntPoint
  let oldContainerMntPoint := getContainerMountPoint pool oldName
  let oldSym := varPath ["containers", oldName]
  let newSym := varPath ["containers", newName]
  let st5 := renameContainerMountpoint st4 oldContainerMntPoint oldSym
    newContainerMntPoint newSym
  let oldSnapshotMntPoint := getSnapshotMountPoint pool oldName
  let newSnapshotMntPoint := getSnapshotMountPoint pool newName
  let st6 := if st5.dirs.contains oldSnapshotMntPoint then
      osRenameDir st5 oldSnapshotMntPoint newSnapshotMntPoint
    else st5
  let oldSnapshotPath := varPath ["snapshots", oldName]
  let st7 := if pathExists st6 oldSnapshotPath then
      osRemoveLink st6 oldSnapshotPath
    else st6
  let newSnapshotPath := varPath ["snapshots", newName]
  if pathExists st7 newSnapshotPath then
    osSymlink st7 newSnapshotMntPoint newSnapshotPath
  else
    .ok st7

/-- The post-create, one-snapshot state for container `a` on pool `p`:
dataset, snapshot `snapshot-s1`, canonical mountpoint property, both
host directories, the container symlink and the aggregate snapshot
symlink (spec §3 lifecycle and invariant 5). -/
def renameDemoState : FsState :=
  { datasets := ["containers/a"],
    snaps := [("containers/a", "snapshot-s1")],
    mountpointProp := [("containers/a", getContainerMountPoint "p" "a")],
    mounted := [],
    dirs := [getContainerMountPoint "p" "a", getSnapshotMountPoint "p" "a"],
    symlinks := [(varPath ["containers", "a"], getContainerMountPoint "p" "a"),
                 (varPath ["snapshots", "a"], getSnapshotMountPoint "p" "a")] }

/-! ### Concurrent ContainerMount (storage_zfs.go lines 411-474)

The coordinator protocol of `ContainerMount` is embedded as an
interleaving transition system.  `n` callers share the single map
entry for one `(pool, container)` key (`lxdStorageOngoingOperationMap`
guarded by `lxdStorageMapLock`); channels are numbered, and closing a
channel is recorded in `closed`.  The model follows the successful
execution: `tryMount` succeeds and makes the path a mountpoint, which
is the scenario of the claim (exactly one caller returns
`ourMount=true`). -/

/-- Program counter of one `ContainerMount` caller.  Owner states carry
the channel installed in the map; `waiting c` is a caller that found
channel `c` in flight and blocks on it; `done r` has returned
`ourMount=r`. -/
inductive TState
  | start
  | waiting (c : Nat)
  | ownerCheck (c : Nat)
  | ownerMount (c : Nat)
  | ownerRelease (c : Nat) (r : Bool)
  | done (r : Bool)
deriving DecidableEq

/-- Global state for one coordinator key: the map entry (`slot`), the
closed channels, whether the container path is a mountpoint, how many
times the zfs mount command ran, a channel counter, and the `n`
callers. -/
structure Sys (n : Nat) where
  slot : Option Nat
  closed : List Nat
  mounted : Bool
  mounts : Nat
  nextChan : Nat
  threads : Fin n → TState

/-- Initial state: empty map, nothing mounted, all callers at entry. -/
def mInit (n : Nat) : Sys n :=
  ⟨none, [], false, 0, 0, fun _ => TState.start⟩

/-- One interleaving step of the `ContainerMount` protocol:
`enter`/`enterWait` are the lock-protected lookup-and-install of lines
419-431, `checkMounted`/`checkUnmounted` the `IsMountPoint` test of
line 454, `mount` the `tryMount` call of line 457, `release` the
deferred `removeLockFromMap` (close + delete, lines 433-442), and
`wake` a waiter returning `false, nil` after the channel closes
(lines 420-428). -/
inductive MStep {n : Nat} : Sys n → Sys n → Prop
  | enter (s : Sys n) (i : Fin n)
      (h1 : s.threads i = TState.start) (h2 : s.slot = none) :
      MStep s
        { s with
          slot := some s.nextChan, nextChan := s.nextChan + 1,
          threads := Function.update s.threads i (TState.ownerCheck s.nextChan) }
  | enterWait (s : Sys n) (i : Fin n) (c : Nat)
      (h1 : s.threads i = TState.start) (h2 : s.slot = some c) :
      MStep s { s with
        threads := Function.update s.threads i (TState.waiting c) }
  | checkMounted (s : Sys n) (i : Fin n) (c : Nat)
      (h1 : s.threads i = TState.ownerCheck c) (h2 : s.mounted = true) :
      MStep s { s with
        threads := Function.update s.threads i (TState.ownerRelease c false) }
  | checkUnmounted (s : Sys n) (i : Fin n) (c : Nat)
      (h1 : s.threads i = TState.ownerCheck c) (h2 : s.mounted = false) :
      MStep s { s with
        threads := Function.update s.threads i (TState.ownerMount c) }
  | mount (s : Sys n) (i : Fin n) (c : Nat)
      (h1 : s.threads i = TState.ownerMount c) :
      MStep s
        { s with
          mounted := true, mounts := s.mounts + 1,
          threads := Function.update s.threads i (TState.ownerRelease c true) }
  | release (s : Sys n) (i : Fin n) (c : Nat) (r : Bool)
      (h1 : s.threads i = TState.ownerRelease c r) :
      MStep s
        { s with
          slot := none, closed := c :: s.closed,
          threads := Function.update s.threads i (TState.done r) }
  | wake (s : Sys n) (i : Fin n) (c : Nat)
      (h1 : s.threads i = TState.waiting c) (h2 : c ∈ s.closed) :
      MStep s { s with
        threads := Function.update s.threads i (TState.done false) }

/-- Reachability from the initial state. -/
def MReach (n : Nat) (s : Sys n) : Prop :=
  Relation.ReflTransGen MStep (mInit n) s

/-- The channel a caller currently owns (has installed in the map). -/
def ownerChan : TState → Option Nat
  | TState.ownerCheck c => some c
  | TState.ownerMount c => some c
  | TState.ownerRelease c _ => some c
  | _ => none

/-- Whether the caller's eventual `ourMount` result is `true`. -/
def resTrue : TState → Bool
  | TState.ownerRelease _ r => r
  | TState.done r => r
  | _ => false

/-- Inductive invariant of the protocol: the map entry matches the
unique owner; an owner about to mount saw an unmounted path; the mount
command ran at most once and exactly when the path is mounted; the
callers holding a `true` result count the mount invocations; and before
any mount there are no closed channels and no finished callers. -/
structure MInv {n : Nat} (s : Sys n) : Prop where
  ownerSlot : ∀ i c, ownerChan (s.threads i) = some c → s.slot = some c
  ownerUniq : ∀ i j, (ownerChan (s.threads i)).isSome →
    (ownerChan (s.threads j)).isSome → i = j
  mountFresh : ∀ i c, s.threads i = TState.ownerMount c → s.mounted = false
  mountsLe : s.mounts ≤ 1
  mountedIff : s.mounted = true ↔ s.mounts = 1
  cardTrue : (Finset.univ.filter fun i => resTrue (s.threads i) = true).card
    = s.mounts
  virgin : s.mounts = 0 → s.closed = [] ∧ ∀ i,
    (∀ r, s.threads i ≠ TState.done r) ∧
    (∀ c r, s.threads i ≠ TState.ownerRelease c r)

/-- The concrete four-step execution of a single caller, used to
exercise the protocol: enter, check, mount, release. -/
def mDemo1 : Sys 1 :=
  { mInit 1 with
    slot := some 0, nextChan := 1,
    threads := Function.update (mInit 1).threads 0 (TState.ownerCheck 0) }

/-- Second demo state: the owner saw the unmounted path. -/
def mDemo2 : Sys 1 :=
  { mDemo1 with
    threads := Function.update mDemo1.threads 0 (TState.ownerMount 0) }

/-- Third demo state: the owner ran the mount command. -/
def mDemo3 : Sys 1 :=
  { mDemo2 with
    mounted := true, mounts := mDemo2.mounts + 1,
    threads := Function.update mDemo2.threads 0 (TState.ownerRelease 0 true) }

/-- Final demo state: the owner released the key and returned `true`. -/
def mDemo4 : Sys 1 :=
  { mDemo3 with
    slot := none, closed := 0 :: mDemo3.closed,
    threads := Function.update mDemo3.threads 0 (TState.done true) }

/-! ## Theorems -/

/-- C7: after `MigrationSink` completes, a snapshot found on
`containers/<name>` is destroyed by the deferred cleanup iff its name
begins with `migration-send`, or unconditionally when the expected
snapshot list is empty. -/
theorem migrationSink_cleanup_spec (expected zfsSnapshots : List String)
    (snap : String) :
    snap ∈ migrationSinkCleanup expected zfsSnapshots ↔
      snap ∈ zfsSnapshots ∧
        (snap.startsWith "migration-send" = true ∨ expected = []) := by
  cases expected <;> simp [migrationSinkCleanup, List.mem_filter]

/-- C8: when target and source live on different storage pools,
`ContainerCopy` returns an explicit error and selects none of the three
copy modes. -/
theorem containerCopy_cross_pool (sourcePool targetPool : String)
    (snapshots : List String) (containerOnly : Bool) (cloneCopyCfg : String)
    (h : sourcePool ≠ targetPool) :
    containerCopy sourcePool targetPool snapshots containerOnly cloneCopyCfg =
      .error "copying containers between different storage pools is not implemented" := by
  simp [containerCopy, h]

/-- Witness for C8 at two concrete pools. -/
theorem containerCopy_cross_pool_witness :
    containerCopy "p1" "p2" [] false "" =
      .error "copying containers between different storage pools is not implemented" :=
  containerCopy_cross_pool "p1" "p2" [] false "" (by decide)

/-- C3 (code bug evidence): in the EBUSY branch of `ContainerMount`
(lines 458-467) the source executes `return false, mounterr`, so the
caller receives the EBUSY error even though the comment and the spec say
the error is to be ignored so the caller can proceed. -/
theorem containerMount_ebusy_returns_error :
    containerMountOnce
        { pathExistsMnt := true, mkMountpointRes := Except.ok (),
          isMnt := false, tryMountRes := some MountErr.ebusy } =
      (false, some MountErr.ebusy) := rfl

/-- C5 (code bug evidence): starting from the canonical post-create
state of container `a` with one snapshot, `Rename(a, b); Rename(b, a)`
restores the dataset list, the mountpoint property, the host
directories and the container symlink, but the aggregate snapshot
symlink `<daemon-var>/snapshots/a` that existed after create is gone:
line 1213 only creates the new symlink when its path already exists. -/
theorem containerRename_roundtrip_loses_symlink :
    hasSymlink renameDemoState (varPath ["snapshots", "a"]) = true ∧
    ((containerRename "p" "a" "b" renameDemoState).bind
        (containerRename "p" "b" "a")).toOption.map
      (fun st => (hasSymlink st (varPath ["snapshots", "a"]),
        st.datasets, st.mountpointProp, st.dirs,
        hasSymlink st (varPath ["containers", "a"]))) =
      some (false, renameDemoState.datasets, renameDemoState.mountpointProp,
        renameDemoState.dirs, true) :=
  ⟨rfl, rfl⟩

/-- C6 (code bug evidence): the invariant "aggregate symlink exists iff
a snapshot exists" holds in the post-create state but is broken by the
reachable state after `ContainerRename(a, b)`: the snapshot moved to
`containers/b` yet no `<daemon-var>/snapshots/b` symlink exists. -/
theorem containerRename_breaks_symlink_invariant :
    (hasSymlink renameDemoState (varPath ["snapshots", "a"]) = true ∧
      renameDemoState.snaps.contains ("containers/a", "snapshot-s1") = true) ∧
    (containerRename "p" "a" "b" renameDemoState).toOption.map
      (fun st => (st.snaps.contains ("containers/b", "snapshot-s1"),
        hasSymlink st (varPath ["snapshots", "b"]))) =
      some (true, false) :=
  ⟨⟨rfl, rfl⟩, rfl⟩

/-- C9 counterexample: `volume.zfs.use_refquota` is a `volume.*`-shape
option, yet `StoragePoolUpdate` accepts a change to it without error —
the source only rejects the three specific volume keys. -/
theorem storagePoolUpdate_accepts_volume_key :
    storagePoolUpdate ["volume.zfs.use_refquota"] = Except.ok () := rfl

/-- C9 (amended): `StoragePoolUpdate` returns an error whenever the
changed-config list contains `size`, `source`, `zfs.pool_name`,
`volume.size`, `volume.block.mount_options`, `volume.block.filesystem`
(or the stray `lvm.thinpool_name` / `lvm.vg_name` checks), and returns
success performing nothing when the only change is `rsync.bwlimit`. -/
theorem storagePoolUpdate_spec_amended :
    (∀ c : List String,
      ("size" ∈ c ∨ "source" ∈ c ∨ "zfs.pool_name" ∈ c ∨ "volume.size" ∈ c ∨
        "volume.block.mount_options" ∈ c ∨ "volume.block.filesystem" ∈ c ∨
        "lvm.thinpool_name" ∈ c ∨ "lvm.vg_name" ∈ c) →
      ∃ e, storagePoolUpdate c = Except.error e) ∧
    storagePoolUpdate ["rsync.bwlimit"] = Except.ok () := by
  refine ⟨fun c h => ?_, rfl⟩
  unfold storagePoolUpdate
  repeat' split
  all_goals first
    | exact ⟨_, rfl⟩
    | (rcases h with h | h | h | h | h | h | h | h <;> exact absurd h (by assumption))

/-- Witness for C9 (amended) at concrete changed-config lists. -/
theorem storagePoolUpdate_spec_amended_witness :
    (∃ e, storagePoolUpdate ["size"] = Except.error e) ∧
      storagePoolUpdate ["rsync.bwlimit"] = Except.ok () :=
  ⟨storagePoolUpdate_spec_amended.1 ["size"] (Or.inl (by decide)),
    storagePoolUpdate_spec_amended.2⟩

/-- C4 counterexample: a `ContainerSetQuota` call whose pool and volume
configs leave `zfs.use_refquota` unset picks up the value the global
`zfsUseRefquota` kept from an earlier call: after a call that set the
global to `"true"`, the same call that freshly returns `quota` returns
`refquota`. -/
theorem containerSetQuota_history_dependent :
    (containerSetQuota
        (containerSetQuota zfsGlobalInit "" "true" 10).2.2 "" "" 10).1 =
      "refquota" ∧
    (containerSetQuota zfsGlobalInit "" "" 10).1 = "quota" ∧
    (containerSetQuota
        (containerSetQuota zfsGlobalInit "" "true" 10).2.2 "" "" 10).1 ≠
      (containerSetQuota zfsGlobalInit "" "" 10).1 :=
  ⟨rfl, rfl, by decide⟩

/-- The call-site preference resolution ignores the incoming global as
soon as pool or volume config sets the key. -/
theorem resolveVolPref_config (g1 g2 poolCfg volCfg : String)
    (h : poolCfg ≠ "" ∨ volCfg ≠ "") :
    resolveVolPref g1 poolCfg volCfg = resolveVolPref g2 poolCfg volCfg := by
  unfold resolveVolPref
  by_cases hv : volCfg = ""
  · rcases h with hp | hp
    · simp [hv, hp]
    · exact absurd hv hp
  · simp [hv]

/-- C4 (amended): the results of `ContainerCanRestore`,
`ContainerSetQuota` and `ContainerGetUsage` are independent of the
process-global preference cache whenever the pool config or the volume
config sets the preference key; when both are unset the global cached
by an earlier call decides (see the counterexample). -/
theorem zfsPrefs_config_determined (g1 g2 poolCfg volCfg : String)
    (snaps : List String) (srcName : String) (size : Int)
    (h : poolCfg ≠ "" ∨ volCfg ≠ "") :
    (containerSetQuota g1 poolCfg volCfg size).1 =
      (containerSetQuota g2 poolCfg volCfg size).1 ∧
    (containerSetQuota g1 poolCfg volCfg size).2.1 =
      (containerSetQuota g2 poolCfg volCfg size).2.1 ∧
    (containerGetUsage g1 poolCfg volCfg).1 =
      (containerGetUsage g2 poolCfg volCfg).1 ∧
    (containerCanRestore g1 poolCfg volCfg snaps srcName).1 =
      (containerCanRestore g2 poolCfg volCfg snaps srcName).1 := by
  have hres := resolveVolPref_config g1 g2 poolCfg volCfg h
  refine ⟨?_, ?_, ?_, ?_⟩
  · simp [containerSetQuota, hres]
  · simp [containerSetQuota, hres]
  · simp [containerGetUsage, hres]
  · unfold containerCanRestore
    split
    · rfl
    · simp [hres]

/-- Witness for C4 (amended) at a concrete volume config. -/
theorem zfsPrefs_config_determined_witness :
    (containerSetQuota "true" "" "false" 5).1 =
      (containerSetQuota "false" "" "false" 5).1 :=
  (zfsPrefs_config_determined "true" "false" "" "false" [] "x" 5
    (Or.inr (by decide))).1

/-- The restore deletion loop, characterised: scanning down from index
`i`, with the source at index `j` and no later occurrence, deletes the
elements strictly above `j` up to `i`, newest first. -/
theorem containerRestoreDeleteFrom_spec (snaps : List String) (src : String)
    (j : Nat) (hj : j < snaps.length) (hsrc : snaps.get ⟨j, hj⟩ = src)
    (hlast : ∀ k, ∀ hk : k < snaps.length, j < k → snaps.get ⟨k, hk⟩ ≠ src) :
    ∀ i, i < snaps.length → j ≤ i →
      containerRestoreDeleteFrom snaps src i =
        ((snaps.drop (j + 1)).take (i - j)).reverse := by
  intro i
  induction i with
  | zero =>
    intro hi hji
    have hj0 : j = 0 := Nat.le_zero.mp hji
    subst hj0
    simp [containerRestoreDeleteFrom]
  | succ i ih =>
    intro hi hji
    rcases Nat.lt_or_ge j (i + 1) with hj2 | hj2
    · have hji2 : j ≤ i := Nat.lt_succ_iff.mp hj2
      have hne : snaps.get ⟨i + 1, hi⟩ ≠ src := hlast (i + 1) hi hj2
      simp only [containerRestoreDeleteFrom,
        List.getD_eq_getElem snaps "" hi, List.get_eq_getElem] at hne ⊢
      rw [if_neg (by simpa using hne)]
      rw [ih (Nat.lt_of_succ_lt hi) hji2]
      have harith : i + 1 - j = (i - j) + 1 := by omega
      rw [harith, List.take_succ]
      have hlt : i - j < (snaps.drop (j + 1)).length := by
        rw [List.length_drop]; omega
      rw [List.getElem?_eq_getElem hlt]
      have hget : (snaps.drop (j + 1))[i - j] = snaps[i + 1] := by
        rw [List.getElem_drop]
        congr 1
        omega
      rw [hget]
      simp
    · have hj3 : j = i + 1 := Nat.le_antisymm hji hj2
      subst hj3
      simp only [containerRestoreDeleteFrom,
        List.getD_eq_getElem snaps "" hi, List.get_eq_getElem] at hsrc ⊢
      rw [if_pos (by simpa using hsrc)]
      simp

/-- C10: with the source snapshot at index `j` (and not occurring
later), `ContainerRestore` deletes exactly the snapshots newer than the
source, newest first, never examining index 0, then issues the rollback
to `snapshot-<snap>`; the `remove_snapshots` configs in scope are never
consulted, so the result is identical for any two configurations. -/
theorem containerRestore_deletes_newer (poolCfg1 volCfg1 poolCfg2 volCfg2 : String)
    (snaps : List String) (srcName : String) (j : Nat)
    (hj : j < snaps.length) (hsrc : snaps.get ⟨j, hj⟩ = srcName)
    (hlast : ∀ k, ∀ hk : k < snaps.length, j < k → snaps.get ⟨k, hk⟩ ≠ srcName) :
    containerRestoreDeletes snaps srcName = (snaps.drop (j + 1)).reverse ∧
    containerRestore poolCfg1 volCfg1 snaps srcName =
      ((snaps.drop (j + 1)).reverse.map RestoreAct.deleteSnap) ++
        [RestoreAct.rollback ("containers/" ++ (splitSnapshotName srcName).1)
          ("snapshot-" ++ (splitSnapshotName srcName).2.1)] ∧
    containerRestore poolCfg1 volCfg1 snaps srcName =
      containerRestore poolCfg2 volCfg2 snaps srcName := by
  have h1 : containerRestoreDeletes snaps srcName = (snaps.drop (j + 1)).reverse := by
    unfold containerRestoreDeletes
    have hlen : snaps.length - 1 < snaps.length := by omega
    have hjle : j ≤ snaps.length - 1 := by omega
    rw [containerRestoreDeleteFrom_spec snaps srcName j hj hsrc hlast
      (snaps.length - 1) hlen hjle]
    congr 1
    have harg : snaps.length - 1 - j = (snaps.drop (j + 1)).length := by
      rw [List.length_drop]; omega
    rw [harg, List.take_length]
  refine ⟨h1, ?_, rfl⟩
  simp only [containerRestore, h1]

/-- Witness for C10 on a three-snapshot container restoring to the
middle snapshot. -/
theorem containerRestore_deletes_newer_witness :
    containerRestoreDeletes ["c/s1", "c/s2", "c/s3"] "c/s2" = ["c/s3"] := by
  have h := containerRestore_deletes_newer "pc" "vc" "pc2" "vc2"
    ["c/s1", "c/s2", "c/s3"] "c/s2" 1 (by decide) (by decide)
    (by decide)
  simpa using h.1

/-- If every snapshot answers removable, the scan returns `true`. -/
theorem zfsCheckRemovable_all (f : String → Except String Bool)
    (snaps : List String) (h : ∀ s ∈ snaps, f s = Except.ok true) :
    zfsCheckRemovable f snaps = Except.ok true := by
  induction snaps with
  | nil => rfl
  | cons a l ih =>
    have ha := h a (List.mem_cons_self a l)
    unfold zfsCheckRemovable
    rw [ha]
    exact ih fun s hs => h s (List.mem_cons_of_mem a hs)

/-- If some snapshot answers non-removable, the scan cannot return
`true` (it either errors out earlier or reports `false`). -/
theorem zfsCheckRemovable_not_true (f : String → Except String Bool)
    (snaps : List String) (bad : String) (hmem : bad ∈ snaps)
    (hbad : f bad = Except.ok false) :
    zfsCheckRemovable f snaps ≠ Except.ok true := by
  induction snaps with
  | nil => simp at hmem
  | cons a l ih =>
    rcases List.mem_cons.mp hmem with rfl | hmem2
    · unfold zfsCheckRemovable
      rw [hbad]
      simp
    · unfold zfsCheckRemovable
      cases hfa : f a with
      | error e => simp
      | ok b =>
        cases b
        · simp
        · exact ih hmem2

/-- `Except.map` inverted on a success. -/
theorem except_map_ok {α β : Type} (f : α → β) (x : Except String α) (b : β)
    (h : x.map f = Except.ok b) : ∃ a, x = Except.ok a ∧ b = f a := by
  cases x with
  | error e => simp [Except.map] at h
  | ok a =>
    refine ⟨a, rfl, ?_⟩
    simpa [Except.map] using h.symm

/-- Whatever the oracles answer, a successful cleanup tail only emits
host cleanup actions. -/
theorem containerDeleteTailActs_host (env : DeleteEnv) (extra : List DelAct)
    (h : containerDeleteTailActs env = Except.ok extra) :
    ∀ a ∈ extra, isHostAct a = true := by
  unfold containerDeleteTailActs at h
  cases hd : env.deleteMntRes with
  | error e => rw [hd] at h; exact Except.noConfusion h
  | ok u =>
    rw [hd] at h
    dsimp only at h
    cases hs : env.snapMntExists with
    | false =>
      rw [hs] at h
      rw [if_neg (by simp)] at h
      dsimp only at h
      cases hl : env.symlinkExists with
      | false =>
        rw [hl] at h
        rw [if_neg (by simp)] at h
        injection h with h2
        subst h2
        intro a ha
        fin_cases ha <;> rfl
      | true =>
        rw [hl] at h
        rw [if_pos rfl] at h
        cases hr : env.removeSymRes with
        | error e => rw [hr] at h; exact Except.noConfusion h
        | ok u2 =>
          rw [hr] at h
          injection h with h2
          subst h2
          intro a ha
          fin_cases ha <;> rfl
    | true =>
      rw [hs] at h
      rw [if_pos rfl] at h
      cases hra : env.removeAllRes with
      | error e =>
        rw [hra] at h
        dsimp only at h
        exact Except.noConfusion h
      | ok u2 =>
        rw [hra] at h
        dsimp only at h
        cases hl : env.symlinkExists with
        | false =>
          rw [hl] at h
          rw [if_neg (by simp)] at h
          injection h with h2
          subst h2
          intro a ha
          fin_cases ha <;> rfl
        | true =>
          rw [hl] at h
          rw [if_pos rfl] at h
          cases hr : env.removeSymRes with
          | error e => rw [hr] at h; exact Except.noConfusion h
          | ok u3 =>
            rw [hr] at h
            injection h with h2
            subst h2
            intro a ha
            fin_cases ha <;> rfl

/-- A successful `containerDeleteTail` yields the branch actions
followed by host cleanup only. -/
theorem containerDeleteTail_shape (env : DeleteEnv) (acc acts : List DelAct)
    (h : containerDeleteTail env acc = Except.ok acts) :
    ∃ extra, acts = acc ++ extra ∧ ∀ a ∈ extra, isHostAct a = true := by
  unfold containerDeleteTail at h
  obtain ⟨extra, hx, hb⟩ := except_map_ok _ _ _ h
  exact ⟨extra, hb, containerDeleteTailActs_host env extra hx⟩

/-- C1: for a container whose dataset exists, a successful
`ContainerDelete` destroys `containers/<name>` and then attempts to
garbage-collect the clone origin when every snapshot is removable;
when some snapshot is not removable it instead sets the mountpoint
property to `none` and renames the dataset to
`deleted/containers/<uuid>`, never destroying it; everything after the
branch is host mountpoint/symlink cleanup. -/
theorem containerDelete_destroy_or_tombstone (env : DeleteEnv)
    (snaps : List String) (acts : List DelAct)
    (hex : env.fsExists = true)
    (hls : env.listSnaps = Except.ok snaps)
    (hok : containerDelete env = Except.ok acts) :
    ((∀ s ∈ snaps, env.snapRemovable s = Except.ok true) →
      ∃ origin0 rest, env.originGet = Except.ok origin0 ∧
        acts = DelAct.destroyFs ("containers/" ++ env.containerName) ::
          DelAct.cleanupOrigin
            (stringDropPre (env.poolName ++ "/") origin0) :: rest ∧
        (∀ a ∈ rest, isHostAct a = true)) ∧
    ((∃ bad ∈ snaps, env.snapRemovable bad = Except.ok false) →
      ∃ rest,
        acts = DelAct.setMountpoint ("containers/" ++ env.containerName)
            "none" ::
          DelAct.renameFs ("containers/" ++ env.containerName)
            ("deleted/containers/" ++ env.newUuid) :: rest ∧
        (∀ a ∈ rest, isHostAct a = true) ∧
        DelAct.destroyFs ("containers/" ++ env.containerName) ∉ acts) := by
  unfold containerDelete at hok
  dsimp only at hok
  rw [hex] at hok
  rw [if_pos rfl] at hok
  rw [hls] at hok
  dsimp only at hok
  cases hrem : zfsCheckRemovable env.snapRemovable snaps with
  | error e =>
    rw [hrem] at hok
    exact Except.noConfusion hok
  | ok removable =>
    rw [hrem] at hok
    dsimp only at hok
    cases removable with
    | true =>
      rw [if_pos rfl] at hok
      constructor
      · intro _
        cases horig : env.originGet with
        | error e => rw [horig] at hok; exact Except.noConfusion hok
        | ok origin0 =>
          rw [horig] at hok
          dsimp only at hok
          cases hdes : env.destroyRes with
          | error e => rw [hdes] at hok; exact Except.noConfusion hok
          | ok u =>
            rw [hdes] at hok
            cases hcl : env.cleanupRes with
            | error e => rw [hcl] at hok; exact Except.noConfusion hok
            | ok u2 =>
              rw [hcl] at hok
              obtain ⟨extra, hacts, hhost⟩ :=
                containerDeleteTail_shape env _ acts hok
              exact ⟨origin0, extra, rfl, by simpa using hacts, hhost⟩
      · rintro ⟨bad, hmem, hbad⟩
        exact absurd hrem (zfsCheckRemovable_not_true _ snaps bad hmem hbad)
    | false =>
      rw [if_neg (by simp)] at hok
      constructor
      · intro hall
        rw [zfsCheckRemovable_all env.snapRemovable snaps hall] at hrem
        exact absurd (Except.ok.inj hrem) (by simp)
      · intro _
        cases hmp : env.setMpRes with
        | error e => rw [hmp] at hok; exact Except.noConfusion hok
        | ok u =>
          rw [hmp] at hok
          cases hrn : env.renameRes with
          | error e => rw [hrn] at hok; exact Except.noConfusion hok
          | ok u2 =>
            rw [hrn] at hok
            obtain ⟨extra, hacts, hhost⟩ :=
              containerDeleteTail_shape env _ acts hok
            refine ⟨extra, by simpa using hacts, hhost, ?_⟩
            rw [hacts]
            intro hmem
            rcases List.mem_append.mp hmem with hin | hin
            · simp at hin
            · have := hhost _ hin
              simp [isHostAct] at this

/-- Witness for C1 on the all-removable demo environment. -/
theorem containerDelete_destroy_or_tombstone_witness :
    ∃ origin0 rest, deleteDemoEnv.originGet = Except.ok origin0 ∧
      [DelAct.destroyFs "containers/a",
        DelAct.cleanupOrigin "deleted/images/fp@readonly",
        DelAct.deleteMnt "a", DelAct.destroySnapDataset "snapshots/a",
        DelAct.removeAllPath "a", DelAct.removeSymlink "a"] =
        DelAct.destroyFs ("containers/" ++ deleteDemoEnv.containerName) ::
          DelAct.cleanupOrigin
            (stringDropPre (deleteDemoEnv.poolName ++ "/") origin0) :: rest ∧
      (∀ a ∈ rest, isHostAct a = true) := by
  have h := containerDelete_destroy_or_tombstone deleteDemoEnv
    ["snapshot-s1"]
    [DelAct.destroyFs "containers/a",
      DelAct.cleanupOrigin "deleted/images/fp@readonly",
      DelAct.deleteMnt "a", DelAct.destroySnapDataset "snapshots/a",
      DelAct.removeAllPath "a", DelAct.removeSymlink "a"]
    rfl rfl rfl
  exact h.1 (by intro s hs; rfl)

/-- Updating one caller without changing its `resTrue` flag keeps the
count of `true` results. -/
theorem card_resTrue_update_same {n : Nat} (f : Fin n → TState) (i : Fin n)
    (a : TState) (h : resTrue a = resTrue (f i)) :
    (Finset.univ.filter fun j => resTrue (Function.update f i a j) = true).card
      = (Finset.univ.filter fun j => resTrue (f j) = true).card := by
  congr 1
  apply Finset.filter_congr
  intro j _
  rcases eq_or_ne j i with rfl | hne
  · rw [Function.update_same, h]
  · rw [Function.update_noteq hne]

/-- Updating one caller from a `false` to a `true` `resTrue` flag adds
one to the count of `true` results. -/
theorem card_resTrue_update_incr {n : Nat} (f : Fin n → TState) (i : Fin n)
    (a : TState) (ha : resTrue a = true) (hi : resTrue (f i) = false) :
    (Finset.univ.filter fun j => resTrue (Function.update f i a j) = true).card
      = (Finset.univ.filter fun j => resTrue (f j) = true).card + 1 := by
  have hset : (Finset.univ.filter fun j =>
      resTrue (Function.update f i a j) = true)
      = insert i (Finset.univ.filter fun j => resTrue (f j) = true) := by
    ext j
    simp only [Finset.mem_filter, Finset.mem_univ, true_and, Finset.mem_insert]
    rcases eq_or_ne j i with rfl | hne
    · simp [Function.update_same, ha]
    · simp [Function.update_noteq hne, hne]
  rw [hset, Finset.card_insert_of_not_mem]
  simp [hi]

/-- The invariant holds initially. -/
theorem MInv_init (n : Nat) : MInv (mInit n) := by
  constructor <;> simp [mInit, ownerChan, resTrue]

/-- The invariant is preserved by every protocol step. -/
theorem MInv_step {n : Nat} {s t : Sys n} (hs : MInv s) (hst : MStep s t) :
    MInv t := by
  cases hst with
  | enter i h1 h2 =>
    have hno : ∀ m : Fin n, ¬ ((ownerChan (s.threads m)).isSome = true) := by
      intro m hsome
      rcases Option.isSome_iff_exists.mp hsome with ⟨c, hc⟩
      have hcs := hs.ownerSlot m c hc
      rw [h2] at hcs
      exact Option.noConfusion hcs
    refine ⟨?_, ?_, ?_, hs.mountsLe, hs.mountedIff, ?_, ?_⟩
    · intro j c hj
      simp only at hj ⊢
      rcases eq_or_ne j i with rfl | hne
      · rw [Function.update_same] at hj
        exact hj
      · rw [Function.update_noteq hne] at hj
        exact absurd (Option.isSome_iff_exists.mpr ⟨c, hj⟩) (hno j)
    · intro j k hjs hks
      simp only at hjs hks
      rcases eq_or_ne j i with hj | hj
      · rcases eq_or_ne k i with hk | hk
        · rw [hj, hk]
        · rw [Function.update_noteq hk] at hks
          exact absurd hks (hno k)
      · rw [Function.update_noteq hj] at hjs
        exact absurd hjs (hno j)
    · intro j c hj
      simp only at hj ⊢
      rcases eq_or_ne j i with rfl | hne
      · rw [Function.update_same] at hj
        exact TState.noConfusion hj
      · rw [Function.update_noteq hne] at hj
        exact hs.mountFresh j c hj
    · have hcs := card_resTrue_update_same s.threads i
        (TState.ownerCheck s.nextChan) (by rw [h1]; rfl)
      exact hcs.trans hs.cardTrue
    · intro h0
      obtain ⟨hc, hv⟩ := hs.virgin h0
      refine ⟨hc, fun j => ⟨?_, ?_⟩⟩
      · intro r hdone
        simp only at hdone
        rcases eq_or_ne j i with rfl | hne
        · rw [Function.update_same] at hdone
          exact TState.noConfusion hdone
        · rw [Function.update_noteq hne] at hdone
          exact (hv j).1 r hdone
      · intro c r hrel
        simp only at hrel
        rcases eq_or_ne j i with rfl | hne
        · rw [Function.update_same] at hrel
          exact TState.noConfusion hrel
        · rw [Function.update_noteq hne] at hrel
          exact (hv j).2 c r hrel
  | enterWait i c0 h1 h2 =>
    refine ⟨?_, ?_, ?_, hs.mountsLe, hs.mountedIff, ?_, ?_⟩
    · intro j c hj
      simp only at hj ⊢
      rcases eq_or_ne j i with rfl | hne
      · rw [Function.update_same] at hj
        exact Option.noConfusion hj
      · rw [Function.update_noteq hne] at hj
        exact hs.ownerSlot j c hj
    · intro j k hjs hks
      simp only at hjs hks
      rcases eq_or_ne j i with hj | hj
      · subst hj
        rw [Function.update_same] at hjs
        exact absurd hjs (by simp [ownerChan])
      · rcases eq_or_ne k i with hk | hk
        · subst hk
          rw [Function.update_same] at hks
          exact absurd hks (by simp [ownerChan])
        · rw [Function.update_noteq hj] at hjs
          rw [Function.update_noteq hk] at hks
          exact hs.ownerUniq j k hjs hks
    · intro j c hj
      simp only at hj ⊢
      rcases eq_or_ne j i with rfl | hne
      · rw [Function.update_same] at hj
        exact TState.noConfusion hj
      · rw [Function.update_noteq hne] at hj
        exact hs.mountFresh j c hj
    · have hcs := card_resTrue_update_same s.threads i
        (TState.waiting c0) (by rw [h1]; rfl)
      exact hcs.trans hs.cardTrue
    · intro h0
      obtain ⟨hc, hv⟩ := hs.virgin h0
      refine ⟨hc, fun j => ⟨?_, ?_⟩⟩
      · intro r hdone
        simp only at hdone
        rcases eq_or_ne j i with rfl | hne
        · rw [Function.update_same] at hdone
          exact TState.noConfusion hdone
        · rw [Function.update_noteq hne] at hdone
          exact (hv j).1 r hdone
      · intro c r hrel
        simp only at hrel
        rcases eq_or_ne j i with rfl | hne
        · rw [Function.update_same] at hrel
          exact TState.noConfusion hrel
        · rw [Function.update_noteq hne] at hrel
          exact (hv j).2 c r hrel
  | checkMounted i c0 h1 h2 =>
    refine ⟨?_, ?_, ?_, hs.mountsLe, hs.mountedIff, ?_, ?_⟩
    · intro j c hj
      simp only at hj ⊢
      rcases eq_or_ne j i with rfl | hne
      · rw [Function.update_same] at hj
        simp only [ownerChan] at hj
        exact hs.ownerSlot j c0 (by rw [h1]; rfl) |>.trans (by rw [Option.some.inj hj])
      · rw [Function.update_noteq hne] at hj
        exact hs.ownerSlot j c hj
    · intro j k hjs hks
      simp only at hjs hks
      have hred : ∀ m : Fin n,
          (ownerChan (Function.update s.threads i
            (TState.ownerRelease c0 false) m)).isSome = true →
          (ownerChan (s.threads m)).isSome = true := by
        intro m hm
        rcases eq_or_ne m i with rfl | hne
        · rw [h1]; rfl
        · rw [Function.update_noteq hne] at hm
          exact hm
      exact hs.ownerUniq j k (hred j hjs) (hred k hks)
    · intro j c hj
      simp only at hj ⊢
      rcases eq_or_ne j i with rfl | hne
      · rw [Function.update_same] at hj
        exact TState.noConfusion hj
      · rw [Function.update_noteq hne] at hj
        exact hs.mountFresh j c hj
    · have hcs := card_resTrue_update_same s.threads i
        (TState.ownerRelease c0 false) (by rw [h1]; rfl)
      exact hcs.trans hs.cardTrue
    · intro h0
      have h0arith : s.mounts = 0 := h0
      have hm1 := hs.mountedIff.mp h2
      exact absurd hm1 (by omega)
  | checkUnmounted i c0 h1 h2 =>
    refine ⟨?_, ?_, ?_, hs.mountsLe, hs.mountedIff, ?_, ?_⟩
    · intro j c hj
      simp only at hj ⊢
      rcases eq_or_ne j i with rfl | hne
      · rw [Function.update_same] at hj
        simp only [ownerChan] at hj
        exact hs.ownerSlot j c0 (by rw [h1]; rfl) |>.trans (by rw [Option.some.inj hj])
      · rw [Function.update_noteq hne] at hj
        exact hs.ownerSlot j c hj
    · intro j k hjs hks
      simp only at hjs hks
      have hred : ∀ m : Fin n,
          (ownerChan (Function.update s.threads i
            (TState.ownerMount c0) m)).isSome = true →
          (ownerChan (s.threads m)).isSome = true := by
        intro m hm
        rcases eq_or_ne m i with rfl | hne
        · rw [h1]; rfl
        · rw [Function.update_noteq hne] at hm
          exact hm
      exact hs.ownerUniq j k (hred j hjs) (hred k hks)
    · intro j c hj
      exact h2
    · have hcs := card_resTrue_update_same s.threads i
        (TState.ownerMount c0) (by rw [h1]; rfl)
      exact hcs.trans hs.cardTrue
    · intro h0
      obtain ⟨hc, hv⟩ := hs.virgin h0
      refine ⟨hc, fun j => ⟨?_, ?_⟩⟩
      · intro r hdone
        simp only at hdone
        rcases eq_or_ne j i with rfl | hne
        · rw [Function.update_same] at hdone
          exact TState.noConfusion hdone
        · rw [Function.update_noteq hne] at hdone
          exact (hv j).1 r hdone
      · intro c r hrel
        simp only at hrel
        rcases eq_or_ne j i with rfl | hne
        · rw [Function.update_same] at hrel
          exact TState.noConfusion hrel
        · rw [Function.update_noteq hne] at hrel
          exact (hv j).2 c r hrel
  | mount i c0 h1 =>
    have hmf := hs.mountFresh i c0 h1
    have hm0 : s.mounts = 0 := by
      have hple := hs.mountsLe
      have hiff := hs.mountedIff
      rcases Nat.lt_or_ge s.mounts 1 with hlt | hge
      · omega
      · have : s.mounts = 1 := by omega
        rw [← hiff] at this
        rw [hmf] at this
        exact absurd this (by simp)
    refine ⟨?_, ?_, ?_, ?_, ?_, ?_, ?_⟩
    · intro j c hj
      simp only at hj ⊢
      rcases eq_or_ne j i with rfl | hne
      · rw [Function.update_same] at hj
        simp only [ownerChan] at hj
        exact hs.ownerSlot j c0 (by rw [h1]; rfl) |>.trans (by rw [Option.some.inj hj])
      · rw [Function.update_noteq hne] at hj
        exact hs.ownerSlot j c hj
    · intro j k hjs hks
      simp only at hjs hks
      have hred : ∀ m : Fin n,
          (ownerChan (Function.update s.threads i
            (TState.ownerRelease c0 true) m)).isSome = true →
          (ownerChan (s.threads m)).isSome = true := by
        intro m hm
        rcases eq_or_ne m i with rfl | hne
        · rw [h1]; rfl
        · rw [Function.update_noteq hne] at hm
          exact hm
      exact hs.ownerUniq j k (hred j hjs) (hred k hks)
    · intro j c hj
      simp only at hj
      rcases eq_or_ne j i with rfl | hne
      · rw [Function.update_same] at hj
        exact TState.noConfusion hj
      · rw [Function.update_noteq hne] at hj
        have hj2 : (ownerChan (s.threads j)).isSome = true := by
          rw [hj]; rfl
        have hi2 : (ownerChan (s.threads i)).isSome = true := by
          rw [h1]; rfl
        exact absurd (hs.ownerUniq j i hj2 hi2) hne
    · show s.mounts + 1 ≤ 1
      omega
    · show true = true ↔ s.mounts + 1 = 1
      simp [hm0]
    · have hcs := card_resTrue_update_incr s.threads i
        (TState.ownerRelease c0 true) rfl (by rw [h1]; rfl)
      show (Finset.univ.filter fun j => resTrue (Function.update s.threads i
        (TState.ownerRelease c0 true) j) = true).card = s.mounts + 1
      rw [hcs, hs.cardTrue]
    · intro h0
      have h0arith : s.mounts + 1 = 0 := h0
      exact absurd h0arith (by omega)
  | release i c0 r0 h1 =>
    have hvac : ∀ m : Fin n, ∀ c,
        ownerChan (Function.update s.threads i (TState.done r0) m) = some c →
        False := by
      intro m c hm
      rcases eq_or_ne m i with rfl | hne
      · rw [Function.update_same] at hm
        exact Option.noConfusion hm
      · rw [Function.update_noteq hne] at hm
        have hm2 : (ownerChan (s.threads m)).isSome = true := by
          rw [hm]; rfl
        have hi2 : (ownerChan (s.threads i)).isSome = true := by
          rw [h1]; rfl
        exact absurd (hs.ownerUniq m i hm2 hi2) hne
    refine ⟨?_, ?_, ?_, hs.mountsLe, hs.mountedIff, ?_, ?_⟩
    · intro j c hj
      exact absurd hj (fun h => hvac j c h)
    · intro j k hjs hks
      simp only at hjs
      rcases Option.isSome_iff_exists.mp hjs with ⟨c, hc⟩
      exact absurd hc (fun h => hvac j c h)
    · intro j c hj
      simp only at hj ⊢
      rcases eq_or_ne j i with rfl | hne
      · rw [Function.update_same] at hj
        exact TState.noConfusion hj
      · rw [Function.update_noteq hne] at hj
        exact hs.mountFresh j c hj
    · have hcs := card_resTrue_update_same s.threads i
        (TState.done r0) (by rw [h1]; rfl)
      exact hcs.trans hs.cardTrue
    · intro h0
      obtain ⟨_, hv⟩ := hs.virgin h0
      exact absurd h1 ((hv i).2 c0 r0)
  | wake i c0 h1 h2 =>
    refine ⟨?_, ?_, ?_, hs.mountsLe, hs.mountedIff, ?_, ?_⟩
    · intro j c hj
      simp only at hj ⊢
      rcases eq_or_ne j i with rfl | hne
      · rw [Function.update_same] at hj
        exact Option.noConfusion hj
      · rw [Function.update_noteq hne] at hj
        exact hs.ownerSlot j c hj
    · intro j k hjs hks
      simp only at hjs hks
      have hred : ∀ m : Fin n,
          (ownerChan (Function.update s.threads i
            (TState.done false) m)).isSome = true →
          (ownerChan (s.threads m)).isSome = true := by
        intro m hm
        rcases eq_or_ne m i with rfl | hne
        · rw [Function.update_same] at hm
          exact absurd hm (by simp [ownerChan])
        · rw [Function.update_noteq hne] at hm
          exact hm
      exact hs.ownerUniq j k (hred j hjs) (hred k hks)
    · intro j c hj
      simp only at hj ⊢
      rcases eq_or_ne j i with rfl | hne
      · rw [Function.update_same] at hj
        exact TState.noConfusion hj
      · rw [Function.update_noteq hne] at hj
        exact hs.mountFresh j c hj
    · have hcs := card_resTrue_update_same s.threads i
        (TState.done false) (by rw [h1]; rfl)
      exact hcs.trans hs.cardTrue
    · intro h0
      obtain ⟨hc, _⟩ := hs.virgin h0
      rw [hc] at h2
      simp at h2

/-- Every reachable protocol state satisfies the invariant. -/
theorem MInv_reach {n : Nat} (s : Sys n) (h : MReach n s) : MInv s := by
  unfold MReach at h
  induction h with
  | refl => exact MInv_init n
  | tail h1 h2 ih => exact MInv_step ih h2

/-- C2: in every reachable state of any number of concurrent
`ContainerMount` callers on one key, the zfs mount command has run at
most once; when every caller has returned, it ran exactly once and
exactly one caller returned `ourMount=true`; and a caller that found an
in-flight operation only ever waits and then returns `ourMount=false`,
never re-checking state. -/
theorem containerMount_at_most_once {n : Nat} (s : Sys n) (hr : MReach n s) :
    s.mounts ≤ 1 ∧
    ((∀ i, ∃ r, s.threads i = TState.done r) → 0 < n →
      s.mounts = 1 ∧
      (Finset.univ.filter fun i => s.threads i = TState.done true).card = 1) ∧
    (∀ t u : Sys n, ∀ i c, MStep t u → t.threads i = TState.waiting c →
      u.threads i = TState.waiting c ∨ u.threads i = TState.done false) := by
  have hinv := MInv_reach s hr
  refine ⟨hinv.mountsLe, ?_, ?_⟩
  · intro hdone hn
    have hm1 : s.mounts = 1 := by
      rcases Nat.lt_or_ge s.mounts 1 with hlt | hge
      · have h00 : s.mounts = 0 := by omega
        obtain ⟨_, hv⟩ := hinv.virgin h00
        obtain ⟨r, hr0⟩ := hdone ⟨0, hn⟩
        exact absurd hr0 ((hv ⟨0, hn⟩).1 r)
      · exact Nat.le_antisymm hinv.mountsLe hge
    refine ⟨hm1, ?_⟩
    have hfeq : (Finset.univ.filter fun i => s.threads i = TState.done true)
        = (Finset.univ.filter fun i => resTrue (s.threads i) = true) := by
      apply Finset.filter_congr
      intro j _
      obtain ⟨r, hj⟩ := hdone j
      rw [hj]
      cases r <;> simp [resTrue]
    rw [hfeq, hinv.cardTrue, hm1]
  · intro t u i c hstep hw
    cases hstep with
    | enter i0 h1 h2 =>
      rcases eq_or_ne i i0 with rfl | hne
      · rw [h1] at hw
        exact TState.noConfusion hw
      · left
        show Function.update t.threads i0 _ i = _
        rw [Function.update_noteq hne]
        exact hw
    | enterWait i0 c0 h1 h2 =>
      rcases eq_or_ne i i0 with rfl | hne
      · rw [h1] at hw
        exact TState.noConfusion hw
      · left
        show Function.update t.threads i0 _ i = _
        rw [Function.update_noteq hne]
        exact hw
    | checkMounted i0 c0 h1 h2 =>
      rcases eq_or_ne i i0 with rfl | hne
      · rw [h1] at hw
        exact TState.noConfusion hw
      · left
        show Function.update t.threads i0 _ i = _
        rw [Function.update_noteq hne]
        exact hw
    | checkUnmounted i0 c0 h1 h2 =>
      rcases eq_or_ne i i0 with rfl | hne
      · rw [h1] at hw
        exact TState.noConfusion hw
      · left
        show Function.update t.threads i0 _ i = _
        rw [Function.update_noteq hne]
        exact hw
    | mount i0 c0 h1 =>
      rcases eq_or_ne i i0 with rfl | hne
      · rw [h1] at hw
        exact TState.noConfusion hw
      · left
        show Function.update t.threads i0 _ i = _
        rw [Function.update_noteq hne]
        exact hw
    | release i0 c0 r0 h1 =>
      rcases eq_or_ne i i0 with rfl | hne
      · rw [h1] at hw
        exact TState.noConfusion hw
      · left
        show Function.update t.threads i0 _ i = _
        rw [Function.update_noteq hne]
        exact hw
    | wake i0 c0 h1 h2 =>
      rcases eq_or_ne i i0 with rfl | hne
      · right
        show Function.update t.threads i _ i = _
        rw [Function.update_same]
      · left
        show Function.update t.threads i0 _ i = _
        rw [Function.update_noteq hne]
        exact hw

/-- The four-step demo execution is reachable. -/
theorem mReach_demo : MReach 1 mDemo4 := by
  have h1 : MStep (mInit 1) mDemo1 := MStep.enter (mInit 1) 0 rfl rfl
  have h2 : MStep mDemo1 mDemo2 :=
    MStep.checkUnmounted mDemo1 0 0 (by decide) rfl
  have h3 : MStep mDemo2 mDemo3 := MStep.mount mDemo2 0 0 (by decide)
  have h4 : MStep mDemo3 mDemo4 :=
    MStep.release mDemo3 0 0 true (by decide)
  exact Relation.ReflTransGen.tail
    (Relation.ReflTransGen.tail
      (Relation.ReflTransGen.tail (Relation.ReflTransGen.single h1) h2) h3) h4

/-- Witness for C2 on the completed single-caller execution. -/
theorem containerMount_at_most_once_witness :
    mDemo4.mounts = 1 ∧
    (Finset.univ.filter fun i => mDemo4.threads i = TState.done true).card
      = 1 := by
  have h := containerMount_at_most_once mDemo4 mReach_demo
  exact h.2.1 (by intro i; exact ⟨true, by fin_cases i <;> decide⟩) (by decide)

end ZfsDriver
